import Mathlib

/-!
Verification development for the `lib-msn-messenger` chat-archive normalizer.

The repository contains two streaming parsers over XML-like event streams:

* `MessengerPlusParser` (`src/messenger/messenger_plus_parser.rs`) — "Format A",
  an HTML session export;
* `XmlParser` (`src/messenger/xml_parser.rs`) — "Format B", an XML export.

This file gives a shallow embedding of both: the shared record/data model, the
per-event handlers (`parse_node`, `parse_text`, `handle_message_datetime`) and
the iterator loops (`next`), the latter unrolled into a total function over an
explicit list of reader events.  External collaborators (the raw event reader,
file opening, path utilities, HTML-entity decoding) are modelled as explicit
parameters or small pure functions, as the design document declares them
out-of-scope generic primitives.
-/

set_option maxRecDepth 10000

namespace Msn

/-! ## Generic string and list helpers -/

/-- Character list of a string (`String.data`), used everywhere so that all
string processing is structural recursion over lists. -/
def chars (s : String) : List Char := s.data

/-- Rust `str::ends_with`: suffix test on raw characters, mirroring the
`self.parents.0.ends_with(..)` calls of the source. -/
def strEndsWith (s suf : String) : Bool := (chars suf).isSuffixOf (chars s)

/-- Substring occurrence on character lists: `pat` occurs contiguously in
`s`. -/
def listInfix (pat : List Char) : List Char → Bool
  | [] => pat.isEmpty
  | c :: rest => pat.isPrefixOf (c :: rest) || listInfix pat rest

/-- Rust `data.matches(pat).count() > 0`, i.e. `pat` occurs as a substring of
`s`.  Note that the empty pattern matches everywhere, so
`strContains s "" = true` for every `s`, exactly as in Rust where
`s.matches("").count() == s.len() + 1 > 0`. -/
def strContains (s pat : String) : Bool := listInfix (chars pat) (chars s)

/-- Whitespace test used by Rust `str::trim` (ASCII fragment; the archives are
ASCII at the trimmed positions). -/
def isWs (c : Char) : Bool := c = ' ' ∨ c = '\t' ∨ c = '\n' ∨ c = '\r'

/-- Rust `str::trim`: drop whitespace from both ends. -/
def rustTrim (s : String) : String :=
  String.mk ((((chars s).dropWhile isWs).reverse.dropWhile isWs).reverse)

/-- Modelled from the spec: the external HTML-entity decoder
(`html_escape::decode_html_entities`) is one of the "generic primitives"
declared out of scope; on entity-free text it is the identity, which is how it
is modelled here. -/
def decodeHtmlEntities (s : String) : String := s

/-! ## Attributes

`common::parse_attributes` (the `common` module is not part of the provided
sources) reduces an attribute list to a map.  Modelled from the spec: "an
attribute list reducible to a mapping from attribute name to string value
(last-wins on duplicate names is acceptable)". -/

/-- An XML attribute list, in document order. -/
abbrev Attrs := List (String × String)

/-- Lookup in the attribute map: the value of the *last* occurrence of key
`k` (last-wins), `none` when absent. -/
def attrGet (a : Attrs) (k : String) : Option String :=
  (a.reverse.find? (fun p => p.fst == k)).map (·.snd)

/-! ## Record data model (`common` module types, reconstructed from their uses
and from the spec's §3 data model) -/

inductive FileType where
  | MessengerPlus
  | XML
deriving DecidableEq

/-- Archive-wide summary.  Modelled from the spec: the `Default` instance of
the missing `common` module gives empty strings; `file_type` defaults to the
XML tag (the Format B constructor relies on the default, and its tests expect
`FileType::XML`). -/
structure ArchiveDetails where
  recipient_id : String := ""
  file_type : FileType := FileType.XML
  first_session_id : String := ""
  last_session_id : String := ""
deriving DecidableEq

structure Text where
  style : String := ""
  content : String := ""
deriving DecidableEq

structure Image where
  src : String := ""
  alt : String := ""
  content : List Nat := []
deriving DecidableEq

/-- The payload tagged union: `Text` / `Image` / `System`. -/
inductive Data where
  | Text (t : Msn.Text)
  | Image (i : Msn.Image)
  | System (s : String)
deriving DecidableEq

/-- One normalized conversation record (`Message`). -/
structure Message where
  datetime : String := ""
  timezone_offset : Option Int := none
  session_id : String := ""
  sender_friendly_name : String := ""
  receiver_friendly_name : String := ""
  data : List Data := []
deriving DecidableEq

/-- Decidable equality for pulled items (`Result<Message, _>` analogues). -/
instance exceptDecEq {ε α : Type} [DecidableEq ε] [DecidableEq α] :
    DecidableEq (Except ε α) := fun a b =>
  match a, b with
  | Except.ok x, Except.ok y => decidable_of_iff (x = y) (by simp)
  | Except.error x, Except.error y => decidable_of_iff (x = y) (by simp)
  | Except.ok _, Except.error _ => isFalse (by simp)
  | Except.error _, Except.ok _ => isFalse (by simp)

/-! ## Reader events

The raw tokenizer is an external collaborator; its interface is the event
stream below (`StartElement` / `Characters` / `EndElement` / `EndDocument`).
Malformed-markup reader errors are excluded: all claims below quantify over
well-formed inputs, which the reader delivers as a list of these events. -/

inductive XmlEvent where
  | StartElement (name : String) (attributes : Attrs)
  | Characters (data : String)
  | EndElement (name : String)
  | EndDocument
deriving DecidableEq

/-! ## Date/time parsing and formatting (model of the `chrono` calls)

Only the format strings actually used by the source are modelled:
`"Session_%Y-%m-%dT%H-%M-%S"` (full consumption), `"(%H:%M)"` and
`"(%H:%M):%S"` (full consumption), `"%Y-%m-%dT%H:%M:%S"` (prefix parse with
remainder, `NaiveTime::parse_and_remainder`), `NaiveTime::from_str`
(`"%H:%M:%S"` with optional fractional seconds), and the two output formats
`"%Y-%m-%dT%H:%M:%S"` / `"%Y-%m-%dT%H:%M"`.  Numeric fields read one to
`maxLen` digits and are range-checked as chrono's `Parsed` setters do. -/

/-- Read further digits, at most `fuel` many, accumulating into `acc`;
stops at the first non-digit. -/
def readDigitsAux : Nat → Nat → List Char → Nat × List Char
  | _, acc, [] => (acc, [])
  | 0, acc, cs => (acc, cs)
  | fuel + 1, acc, c :: cs =>
      if c.isDigit then readDigitsAux fuel (acc * 10 + (c.toNat - 48)) cs
      else (acc, c :: cs)

/-- Read a number of one to `maxLen` digits; `none` if the input does not
start with a digit. -/
def readNum (maxLen : Nat) (cs : List Char) : Option (Nat × List Char) :=
  match cs with
  | [] => none
  | c :: rest =>
      if c.isDigit then some (readDigitsAux (maxLen - 1) (c.toNat - 48) rest)
      else none

/-- Expect a single literal character. -/
def expectChar (c : Char) (cs : List Char) : Option (List Char) :=
  match cs with
  | [] => none
  | c' :: rest => if c' = c then some rest else none

/-- Expect a literal character sequence. -/
def expectLit (lit : List Char) (cs : List Char) : Option (List Char) :=
  if lit.isPrefixOf cs then some (cs.drop lit.length) else none

/-- Leap year (proleptic Gregorian), as chrono uses for day validation. -/
def isLeapYear (y : Nat) : Bool := y % 4 = 0 ∧ (y % 100 ≠ 0 ∨ y % 400 = 0)

def daysInMonth (y m : Nat) : Nat :=
  if m = 2 then (if isLeapYear y then 29 else 28)
  else if m = 4 ∨ m = 6 ∨ m = 9 ∨ m = 11 then 30
  else 31

/-- A calendar date-time with second precision, the shadow of
`chrono::NaiveDateTime` for this code base (no sub-second component is ever
produced by the parsers modelled here).  Defaults give chrono's
`NaiveDateTime::default()`, 1970-01-01 00:00:00. -/
structure DT where
  year : Nat := 1970
  month : Nat := 1
  day : Nat := 1
  hour : Nat := 0
  minute : Nat := 0
  second : Nat := 0
deriving DecidableEq

/-- Model of `NaiveDateTime::parse_from_str(id, "Session_%Y-%m-%dT%H-%M-%S")`: strict,
whole-string parse with calendar-valid date and in-range time fields. -/
def parseSessionId (s : String) : Option DT :=
  match expectLit (chars "Session_") (chars s) with
  | none => none
  | some cs =>
    match readNum 4 cs with
    | none => none
    | some (y, cs) =>
      match expectChar '-' cs with
      | none => none
      | some cs =>
        match readNum 2 cs with
        | none => none
        | some (mo, cs) =>
          if mo < 1 ∨ 12 < mo then none else
          match expectChar '-' cs with
          | none => none
          | some cs =>
            match readNum 2 cs with
            | none => none
            | some (d, cs) =>
              if d < 1 ∨ daysInMonth y mo < d then none else
              match expectChar 'T' cs with
              | none => none
              | some cs =>
                match readNum 2 cs with
                | none => none
                | some (h, cs) =>
                  if 23 < h then none else
                  match expectChar '-' cs with
                  | none => none
                  | some cs =>
                    match readNum 2 cs with
                    | none => none
                    | some (mi, cs) =>
                      if 59 < mi then none else
                      match expectChar '-' cs with
                      | none => none
                      | some cs =>
                        match readNum 2 cs with
                        | none => none
                        | some (sec, cs) =>
                          if 59 < sec then none else
                          if cs.isEmpty then
                            some { year := y, month := mo, day := d,
                                   hour := h, minute := mi, second := sec }
                          else none

/-- The common core of the two `"(%H:%M)"`-prefixed time formats: consumes
`"(H:M)"` and returns the unconsumed remainder. -/
def parseParenHMCore (cs : List Char) : Option ((Nat × Nat) × List Char) :=
  match expectChar '(' cs with
  | none => none
  | some cs =>
    match readNum 2 cs with
    | none => none
    | some (h, cs) =>
      if 23 < h then none else
      match expectChar ':' cs with
      | none => none
      | some cs =>
        match readNum 2 cs with
        | none => none
        | some (mi, cs) =>
          if 59 < mi then none else
          match expectChar ')' cs with
          | none => none
          | some cs => some ((h, mi), cs)

/-- Model of `NaiveTime::parse_from_str(data, "(%H:%M)")`: full consumption. -/
def parseParenHM (s : String) : Option (Nat × Nat) :=
  match parseParenHMCore (chars s) with
  | some (v, []) => some v
  | _ => none

/-- Model of `NaiveTime::parse_from_str(s, "(%H:%M):%S")`: full consumption. -/
def parseParenHMS (s : String) : Option (Nat × Nat × Nat) :=
  match parseParenHMCore (chars s) with
  | none => none
  | some (hm, cs) =>
    match expectChar ':' cs with
    | none => none
    | some cs =>
      match readNum 2 cs with
      | none => none
      | some (sec, cs) =>
        if 59 < sec then none else
        if cs.isEmpty then some (hm.fst, hm.snd, sec) else none

/-- Model of `NaiveTime::parse_and_remainder(s, "%Y-%m-%dT%H:%M:%S")`: prefix parse.
Only the time-of-day is resolved (returned as seconds since midnight); the
date fields are scanned and range-checked but otherwise discarded, exactly as
chrono resolves a `NaiveTime` from this format.  Returns the remainder. -/
def parseAndRemainder (s : String) : Option (Nat × String) :=
  match readNum 4 (chars s) with
  | none => none
  | some (_y, cs) =>
    match expectChar '-' cs with
    | none => none
    | some cs =>
      match readNum 2 cs with
      | none => none
      | some (mo, cs) =>
        if mo < 1 ∨ 12 < mo then none else
        match expectChar '-' cs with
        | none => none
        | some cs =>
          match readNum 2 cs with
          | none => none
          | some (d, cs) =>
            if d < 1 ∨ 31 < d then none else
            match expectChar 'T' cs with
            | none => none
            | some cs =>
              match readNum 2 cs with
              | none => none
              | some (h, cs) =>
                if 23 < h then none else
                match expectChar ':' cs with
                | none => none
                | some cs =>
                  match readNum 2 cs with
                  | none => none
                  | some (mi, cs) =>
                    if 59 < mi then none else
                    match expectChar ':' cs with
                    | none => none
                    | some cs =>
                      match readNum 2 cs with
                      | none => none
                      | some (sec, cs) =>
                        if 59 < sec then none else
                        some (h * 3600 + mi * 60 + sec, String.mk cs)

/-- Model of `NaiveTime::from_str` (`"%H:%M:%S"` plus optional fractional seconds,
full consumption).  The sub-second part is syntax-checked and discarded —
the archives carry whole-second local times and the source only ever feeds
the result into a whole-minute difference. -/
def timeFromStr (s : String) : Option Nat :=
  match readNum 2 (chars s) with
  | none => none
  | some (h, cs) =>
    if 23 < h then none else
    match expectChar ':' cs with
    | none => none
    | some cs =>
      match readNum 2 cs with
      | none => none
      | some (mi, cs) =>
        if 59 < mi then none else
        match expectChar ':' cs with
        | none => none
        | some cs =>
          match readNum 2 cs with
          | none => none
          | some (sec, cs) =>
            if 59 < sec then none else
            match cs with
            | [] => some (h * 3600 + mi * 60 + sec)
            | '.' :: ds =>
                if ds.isEmpty = false ∧ ds.all Char.isDigit then
                  some (h * 3600 + mi * 60 + sec)
                else none
            | _ => none

/-- Zero-pad to two digits (`%m`, `%d`, `%H`, `%M`, `%S` output). -/
def pad2 (n : Nat) : String := if n < 10 then "0" ++ toString n else toString n

/-- Zero-pad to four digits (`%Y` output). -/
def pad4 (n : Nat) : String :=
  if n < 10 then "000" ++ toString n
  else if n < 100 then "00" ++ toString n
  else if n < 1000 then "0" ++ toString n
  else toString n

/-- Model of `datetime.format("%Y-%m-%dT%H:%M:%S")` for a date-time whose date comes
from `d` and whose time-of-day is `(h, mi, sec)`. -/
def fmtSecondLevel (d : DT) (h mi sec : Nat) : String :=
  pad4 d.year ++ "-" ++ pad2 d.month ++ "-" ++ pad2 d.day ++ "T" ++
    pad2 h ++ ":" ++ pad2 mi ++ ":" ++ pad2 sec

/-- Model of `datetime.format("%Y-%m-%dT%H:%M")`: minute-level precision only. -/
def fmtMinuteLevel (d : DT) (h mi : Nat) : String :=
  pad4 d.year ++ "-" ++ pad2 d.month ++ "-" ++ pad2 d.day ++ "T" ++
    pad2 h ++ ":" ++ pad2 mi

/-! ## Path utilities (`std::path`, external primitives)

Modelled from the spec: "filesystem path resolution utilities" are external
collaborators; the fragment below reproduces `Path::parent`,
`Path::file_stem` and `Path::join` on ordinary Unix-style relative and
absolute paths (the only shapes the archive paths take). -/

def dropTrailingSlashes (cs : List Char) : List Char :=
  (cs.reverse.dropWhile (· = '/')).reverse

/-- Model of `Path::new(p).parent()`: `none` for the empty path and for the root. -/
def parentDir (p : String) : Option String :=
  let cs := dropTrailingSlashes (chars p)
  if cs.any (· ≠ '/') then
    let rest := (cs.reverse.dropWhile (· ≠ '/')).reverse
    if rest.isEmpty then some ""
    else if rest.all (· = '/') then some "/"
    else some (String.mk (dropTrailingSlashes rest))
  else none

/-- Model of `Path::new(p).file_name()`: the final path component. -/
def fileName (p : String) : Option String :=
  let cs := dropTrailingSlashes (chars p)
  let nm := (cs.reverse.takeWhile (· ≠ '/')).reverse
  if nm.isEmpty ∨ nm = ['.'] ∨ nm = ['.', '.'] then none else some (String.mk nm)

/-- Model of `path.file_stem().unwrap_or_default()`: the file name with its final
extension removed (a leading dot does not start an extension). -/
def fileStem (p : String) : String :=
  match fileName p with
  | none => ""
  | some n =>
    let cs := chars n
    if (cs.reverse.takeWhile (· ≠ '.')).length = cs.length then n
    else
      let before := ((cs.reverse.dropWhile (· ≠ '.')).reverse).dropLast
      if before.isEmpty then n else String.mk before

/-- Model of `Path::join` for the relative `src` attributes found in the archives. -/
def pathJoin (dir file : String) : String := dir ++ "/" ++ file

/-- How a run over a finite event list came to a stop. -/
inductive RunEnd where
  /-- the `EndDocument` event was consumed -/
  | endDoc
  /-- the supplied event list was exhausted mid-stream (models a caller that
  stops pulling before end-of-document) -/
  | outOfEvents
  /-- Format B only: `message.data.last_mut()?` hit `None` inside `next`,
  which makes the iterator return `None` mid-stream -/
  | halted
deriving DecidableEq

/-! ## Format A: `MessengerPlusParser` (`messenger_plus_parser.rs`) -/

/-- Model of the `MsgPlusSession` struct: mutable session-scoped state (`#[derive(Default)]`). -/
structure MsgPlusSession where
  date : DT := {}
  id : String := ""
  owner : String := ""
  recipient : String := ""
  message_style : String := ""
deriving DecidableEq

/-- The state of a `MessengerPlusParser`, minus the reader (the reader's
remaining events are passed to `MessengerPlusParser.process` explicitly).
`parents` is the `(path string, last start-element attributes)` pair of the
source. -/
structure MessengerPlusParser where
  details : ArchiveDetails
  parents : String × Attrs
  session : MsgPlusSession
  directory : String
  first_message : Bool
deriving DecidableEq

/-- Model of `MessengerPlusParser::new`.  `canOpen` models the external
`common::get_parser(path)` file-open (`common` is not among the provided
sources; modelled from the spec, which makes an unreadable file a
construction error).  Field initializers run in declaration order, so the
open is attempted before the containing-directory check. -/
def MessengerPlusParser.new (canOpen : Bool) (path : String) :
    Except String MessengerPlusParser :=
  let recipient := fileStem path
  if canOpen = false then Except.error "cannot open file" else
  match parentDir path with
  | none => Except.error "The file must be somewhere in a directory"
  | some dir =>
      Except.ok
        { details := { recipient_id := recipient,
                       file_type := FileType.MessengerPlus }
          parents := ("", [])
          session := {}
          directory := dir
          first_message := true }

/-- Model of `MessengerPlusParser::parse_node`.  Returns the updated parser state, the
updated record under construction, and `some err` when the original returns
`Err` (in which case, as in the source, the state mutations made before the
`?` have already happened).  `fs` models the filesystem: the bytes of each
readable file, `none` for unreadable/missing ones. -/
def MessengerPlusParser.parse_node (fs : String → Option (List Nat))
    (self : MessengerPlusParser) (name : String) (attributes : Attrs)
    (message : Message) :
    MessengerPlusParser × Message × Option String :=
  if name == "div" then
    if strEndsWith self.parents.fst "html.body" &&
        (attrGet attributes "class" == some "mplsession") then
      match attrGet attributes "id" with
      | some id =>
          match parseSessionId id with
          | none =>
              ({ self with session := { self.session with id := id } },
               message, some "premature end of input")
          | some dt =>
              if self.details.first_session_id = "" then
                ({ self with
                     session := { self.session with id := id, date := dt }
                     details := { self.details with first_session_id := id } },
                 message, none)
              else
                ({ self with
                     session := { self.session with id := id, date := dt } },
                 message, none)
      | none => (self, message, none)
    else (self, message, none)
  else if name == "td" then
    if strEndsWith self.parents.fst "html.body.div.table.tbody.tr" &&
        (attrGet attributes "style").isSome then
      match attrGet attributes "style" with
      | some style =>
          ({ self with session := { self.session with
               message_style := rustTrim (decodeHtmlEntities style) } },
           message, none)
      | none => (self, message, none)
    else (self, message, none)
  else if name == "tr" then
    if strEndsWith self.parents.fst "html.body.div.table.tbody" then
      if attrGet attributes "class" == some "msgplus" then
        (self,
         { message with session_id := self.session.id
                        data := [Data.System ""] },
         none)
      else (self, { message with session_id := self.session.id }, none)
    else (self, message, none)
  else if name == "img" then
    if strEndsWith self.parents.fst "html.body.div.table.tbody.tr.td" &&
        (attrGet attributes "src").isSome then
      match attrGet attributes "src" with
      | some src =>
          match fs (pathJoin self.directory src) with
          | none => (self, message, some "no such file or directory")
          | some buffer =>
              (self,
               { message with
                   data := message.data ++
                     [Data.Image
                       { src := rustTrim src
                         alt := match attrGet attributes "alt" with
                                | some alt => rustTrim alt
                                | none => ""
                         content := buffer }] },
               none)
      | none => (self, message, none)
    else (self, message, none)
  else (self, message, none)

/-- Model of `Vec::swap_remove(0)`: remove index 0 and move the last element into its
place. -/
def swapRemoveZero : List Data → List Data
  | [] => []
  | [_] => []
  | _ :: rest => rest.getLastD (Data.System "") :: rest.dropLast

/-- Model of `MessengerPlusParser::parse_text`, keyed on the exact ancestor path.
`data.matches(owner).count() > 0` is rendered as the equivalent substring
test `strContains data owner`. -/
def MessengerPlusParser.parse_text (self : MessengerPlusParser)
    (data : String) (message : Message) :
    MessengerPlusParser × Message × Option String :=
  if self.parents.fst == ".html.body.div.ul.li" then
    if attrGet self.parents.snd "class" == some "in" then
      ({ self with session := { self.session with owner := rustTrim data } },
       message, none)
    else
      ({ self with session := { self.session with recipient := rustTrim data } },
       message, none)
  else if self.parents.fst == ".html.body.div.table.tbody.tr.th.span" then
    if self.first_message then
      match parseParenHMS (data ++ ":" ++ toString self.session.date.second) with
      | none => (self, message, some "premature end of input")
      | some (h, mi, sec) =>
          ({ self with first_message := false },
           { message with datetime := fmtSecondLevel self.session.date h mi sec },
           none)
    else
      match parseParenHM data with
      | none => (self, message, some "premature end of input")
      | some (h, mi) =>
          (self,
           { message with datetime := fmtMinuteLevel self.session.date h mi },
           none)
  else if self.parents.fst == ".html.body.div.table.tbody.tr.th" then
    if strContains data self.session.owner then
      (self,
       { message with
           sender_friendly_name := self.session.owner
           receiver_friendly_name := self.session.recipient },
       none)
    else
      (self,
       { message with
           sender_friendly_name := self.session.recipient
           receiver_friendly_name := self.session.owner },
       none)
  else if self.parents.fst == ".html.body.div.table.tbody.tr.td" then
    match message.data.head? with
    | some (Data.System _) =>
        (self,
         { message with
             data := swapRemoveZero (message.data ++ [Data.System data]) },
         none)
    | _ =>
        (self,
         { message with
             data := message.data ++
               [Data.Text
                 (match attrGet self.parents.snd "style" with
                  | none => { content := data
                              style := self.session.message_style }
                  | some style => { content := data
                                    style := rustTrim style })] },
         none)
  else (self, message, none)

/-- Model of `self.parents.0 = &self.parents.0[0..rfind('.')]` on an `EndElement`:
drop the final `.segment` (everything from the last dot on); the empty string
when there is no dot. -/
def popPath (s : String) : String :=
  match (chars s).reverse.dropWhile (· ≠ '.') with
  | [] => ""
  | _ :: rest => String.mk rest.reverse

/-- The iterator `next` of `MessengerPlusParser`, unrolled over an explicit
event list: repeated pulls by a caller that stops at the first `None`.  Each
yielded item (`Ok` record or `Err`) is appended to the output list; after an
`Err` the partially built record is dropped and the next pull starts from a
fresh `Message::default()`, as in the source.  Returns the outputs, the final
state, and how the run stopped. -/
def MessengerPlusParser.process (fs : String → Option (List Nat)) :
    MessengerPlusParser → Message → List XmlEvent →
    List (Except String Message) × MessengerPlusParser × RunEnd
  | self, _message, [] => ([], self, RunEnd.outOfEvents)
  | self, message, XmlEvent.StartElement name attributes :: rest =>
      match self.parse_node fs name attributes message with
      | (self', message', none) =>
          MessengerPlusParser.process fs
            { self' with
                parents := (self'.parents.fst ++ "." ++ name, attributes) }
            message' rest
      | (self', _message', some e) =>
          (Except.error e :: (MessengerPlusParser.process fs self' {} rest).fst,
           (MessengerPlusParser.process fs self' {} rest).snd)
  | self, message, XmlEvent.Characters data :: rest =>
      match self.parse_text data message with
      | (self', message', none) =>
          MessengerPlusParser.process fs self' message' rest
      | (self', _message', some e) =>
          (Except.error e :: (MessengerPlusParser.process fs self' {} rest).fst,
           (MessengerPlusParser.process fs self' {} rest).snd)
  | self, message, XmlEvent.EndElement name :: rest =>
      if name == "tr" &&
          strEndsWith (popPath self.parents.fst) "html.body.div.table.tbody" then
        (Except.ok message ::
           (MessengerPlusParser.process fs
             { self with parents := (popPath self.parents.fst, self.parents.snd) }
             {} rest).fst,
         (MessengerPlusParser.process fs
           { self with parents := (popPath self.parents.fst, self.parents.snd) }
           {} rest).snd)
      else
        MessengerPlusParser.process fs
          { self with parents := (popPath self.parents.fst, self.parents.snd) }
          message rest
  | self, _message, XmlEvent.EndDocument :: _ =>
      ([],
       { self with details :=
           { self.details with last_session_id := self.session.id } },
       RunEnd.endDoc)

/-- Model of `MessengerArchive::details` for `MessengerPlusParser`: gated on
`last_session_id` being non-empty. -/
def MessengerPlusParser.getDetails (self : MessengerPlusParser) :
    Option ArchiveDetails :=
  if self.details.last_session_id = "" then none else some self.details

/-! ## Format B: `XmlParser` (`xml_parser.rs`) -/

/-- The state of an `XmlParser`, minus the reader.  `parents` is the
`Vec<String>` ancestor stack (push at the end). -/
structure XmlParser where
  details : ArchiveDetails
  parents : List String
  done : Bool
deriving DecidableEq

/-- Model of `XmlParser::new`.  `canOpen` models `common::get_parser` as for Format A;
there is no containing-directory requirement here. -/
def XmlParser.new (canOpen : Bool) (path : String) : Except String XmlParser :=
  if canOpen = false then Except.error "cannot open file" else
  Except.ok
    { details := { recipient_id := fileStem path }
      parents := []
      done := false }

/-- Model of `XmlParser::handle_message_datetime`: copy the `DateTime` attribute
verbatim into the record, then compute the timezone offset when both the
`DateTime` prefix (`"%Y-%m-%dT%H:%M:%S"`, via `parse_and_remainder`) and the
`Time` attribute (`NaiveTime::from_str`) parse.  `(local - utc).num_minutes()`
is the whole-minute part of the signed difference, truncated toward zero. -/
def XmlParser.handle_message_datetime (attributes : Attrs)
    (message : Message) : Message :=
  let message :=
    { message with datetime := (attrGet attributes "DateTime").getD "" }
  match parseAndRemainder message.datetime with
  | none => message
  | some (utc, _rem) =>
      match timeFromStr ((attrGet attributes "Time").getD "") with
      | none => message
      | some localTime =>
          { message with
              timezone_offset :=
                some (Int.tdiv ((localTime : Int) - (utc : Int)) 60) }

/-- Model of `XmlParser::parse_node` (never fails). -/
def XmlParser.parse_node (self : XmlParser) (name : String)
    (message : Message) (attributes : Attrs) : XmlParser × Message :=
  if name == "Log" then
    ({ self with details :=
         { self.details with
             first_session_id := (attrGet attributes "FirstSessionID").getD "0"
             last_session_id := (attrGet attributes "LastSessionID").getD "0" } },
     message)
  else if name == "Message" then
    (self,
     XmlParser.handle_message_datetime attributes
       { message with session_id := (attrGet attributes "SessionID").getD "0" })
  else if name == "User" then
    if self.parents.contains "From" then
      (self, { message with
                 sender_friendly_name := (attrGet attributes "FriendlyName").getD "" })
    else if self.parents.contains "To" then
      (self, { message with
                 receiver_friendly_name := (attrGet attributes "FriendlyName").getD "" })
    else (self, message)
  else if name == "Text" then
    (self, { message with
               data := message.data ++
                 [Data.Text { style := (attrGet attributes "Style").getD "" }] })
  else (self, message)

/-- The iterator `next` of `XmlParser`, unrolled over an explicit event list
exactly as `MessengerPlusParser.process`.  The `Characters` arm reproduces
`message.data.last_mut()?`: when the record under construction has an empty
payload at a `Message > Text` character event, `next` returns `None`
mid-stream — rendered as the `RunEnd.halted` outcome. -/
def XmlParser.process :
    XmlParser → Message → List XmlEvent →
    List (Except String Message) × XmlParser × RunEnd
  | self, _message, [] => ([], self, RunEnd.outOfEvents)
  | self, message, XmlEvent.StartElement name attributes :: rest =>
      match self.parse_node name message attributes with
      | (self', message') =>
          XmlParser.process { self' with parents := self'.parents ++ [name] }
            message' rest
  | self, message, XmlEvent.Characters data :: rest =>
      if ["Message", "Text"].isSuffixOf self.parents then
        match message.data.getLast? with
        | none => ([], self, RunEnd.halted)
        | some (Data.Text t) =>
            XmlParser.process self
              { message with
                  data := message.data.dropLast ++
                    [Data.Text { t with content := data }] }
              rest
        | some _ => XmlParser.process self message rest
      else XmlParser.process self message rest
  | self, message, XmlEvent.EndElement name :: rest =>
      if name == "Message" then
        (Except.ok message ::
           (XmlParser.process { self with parents := self.parents.dropLast } {} rest).fst,
         (XmlParser.process { self with parents := self.parents.dropLast } {} rest).snd)
      else XmlParser.process { self with parents := self.parents.dropLast } message rest
  | self, _message, XmlEvent.EndDocument :: _ =>
      ([], { self with done := true }, RunEnd.endDoc)

/-- Model of `MessengerArchive::details` for `XmlParser`: gated on the `done` flag. -/
def XmlParser.getDetails (self : XmlParser) : Option ArchiveDetails :=
  if self.done then some self.details else none

/-! ## Boundary-element counters and run-output predicates -/

/-- The number of Format A record boundaries in an event list, before the
first `EndDocument`: end-events of a `tr` element observed while the path
(after popping) ends at the table body.  The first argument simulates the
path exactly as `MessengerPlusParser.process` maintains it. -/
def countTrEnds : String → List XmlEvent → Nat
  | _path, [] => 0
  | path, XmlEvent.StartElement name _ :: rest =>
      countTrEnds (path ++ "." ++ name) rest
  | path, XmlEvent.Characters _ :: rest => countTrEnds path rest
  | path, XmlEvent.EndElement name :: rest =>
      (if name == "tr" &&
          strEndsWith (popPath path) "html.body.div.table.tbody" then 1 else 0) +
        countTrEnds (popPath path) rest
  | _path, XmlEvent.EndDocument :: _ => 0

/-- The number of Format B record boundaries (`Message` end-events) in an
event list, before the first `EndDocument`. -/
def countMsgEnds : List XmlEvent → Nat
  | [] => 0
  | XmlEvent.EndElement name :: rest =>
      (if name == "Message" then 1 else 0) + countMsgEnds rest
  | XmlEvent.EndDocument :: _ => 0
  | _ :: rest => countMsgEnds rest

/-- Whether a pulled item is a record (`Ok`) rather than an error. -/
def exOk : Except String Message → Bool
  | Except.ok _ => true
  | Except.error _ => false

/-! ## Concrete sample inputs used by witnesses and counterexamples -/

/-- A filesystem with no readable files. -/
def fsEmpty : String → Option (List Nat) := fun _ => none

/-- A filesystem holding exactly one one-byte image at `d/x.png`. -/
def fsOneImg : String → Option (List Nat) :=
  fun p => if p = "d/x.png" then some [9] else none

/-- A freshly constructed Format A parser state for an archive at `d/a.html`
(what `MessengerPlusParser::new` returns for that path). -/
def stA0 : MessengerPlusParser :=
  { details := { recipient_id := "a", file_type := FileType.MessengerPlus }
    parents := ("", [])
    session := {}
    directory := "d"
    first_message := true }

/-- A freshly constructed Format B parser state for an archive at
`scrappy.xml`. -/
def stB0 : XmlParser :=
  { details := { recipient_id := "scrappy" }, parents := [], done := false }

/-- A well-formed Format A archive with no session markers and no rows. -/
def evsEmptyA : List XmlEvent :=
  [XmlEvent.StartElement "html" [], XmlEvent.EndElement "html",
   XmlEvent.EndDocument]

/-- A well-formed Format A archive with one session marker and one dialogue
row. -/
def evsOneRow : List XmlEvent :=
  [XmlEvent.StartElement "html" [], XmlEvent.StartElement "body" [],
   XmlEvent.StartElement "div"
     [("class", "mplsession"), ("id", "Session_2009-08-05T19-30-21")],
   XmlEvent.StartElement "table" [], XmlEvent.StartElement "tbody" [],
   XmlEvent.StartElement "tr" [], XmlEvent.StartElement "td" [],
   XmlEvent.Characters "hi", XmlEvent.EndElement "td",
   XmlEvent.EndElement "tr", XmlEvent.EndElement "tbody",
   XmlEvent.EndElement "table", XmlEvent.EndElement "div",
   XmlEvent.EndElement "body", XmlEvent.EndElement "html",
   XmlEvent.EndDocument]

/-- A well-formed Format A archive whose single row is flagged with the
system class and also contains an `img` element. -/
def evsSysImg : List XmlEvent :=
  [XmlEvent.StartElement "html" [], XmlEvent.StartElement "body" [],
   XmlEvent.StartElement "div" [], XmlEvent.StartElement "table" [],
   XmlEvent.StartElement "tbody" [],
   XmlEvent.StartElement "tr" [("class", "msgplus")],
   XmlEvent.StartElement "td" [],
   XmlEvent.StartElement "img" [("src", "x.png")],
   XmlEvent.EndElement "img",
   XmlEvent.Characters "sys notice", XmlEvent.EndElement "td",
   XmlEvent.EndElement "tr", XmlEvent.EndElement "tbody",
   XmlEvent.EndElement "table", XmlEvent.EndElement "div",
   XmlEvent.EndElement "body", XmlEvent.EndElement "html",
   XmlEvent.EndDocument]

/-- A Format A parser state positioned at the header time span of a row, in
the session whose marker was `Session_2009-08-05T19-30-21`. -/
def stSpan : MessengerPlusParser :=
  { details := { recipient_id := "a", file_type := FileType.MessengerPlus }
    parents := (".html.body.div.table.tbody.tr.th.span", [])
    session := { date := { year := 2009, month := 8, day := 5,
                           hour := 19, minute := 30, second := 21 } }
    directory := "d"
    first_message := true }

/-- A Format A parser state positioned at the header cell of a row, with the
participants resolved to Alice (owner) and Bob (counterpart). -/
def stHeader : MessengerPlusParser :=
  { details := { recipient_id := "a", file_type := FileType.MessengerPlus }
    parents := (".html.body.div.table.tbody.tr.th", [])
    session := { owner := "Alice", recipient := "Bob" }
    directory := "d"
    first_message := false }

/-- A well-formed Format B archive with an attribute-less `Log` element and
no `Message` elements. -/
def evsScrappy : List XmlEvent :=
  [XmlEvent.StartElement "Log" [], XmlEvent.EndElement "Log",
   XmlEvent.EndDocument]

/-- A well-formed Format B archive with two empty `Message` elements. -/
def evsTwoMsgs : List XmlEvent :=
  [XmlEvent.StartElement "Log" [],
   XmlEvent.StartElement "Message" [], XmlEvent.EndElement "Message",
   XmlEvent.StartElement "Message" [], XmlEvent.EndElement "Message",
   XmlEvent.EndElement "Log", XmlEvent.EndDocument]

/-- A well-formed Format B archive abusing nesting: a `Message` element
nested inside a `Text` element, followed by character data.  After the inner
`Message` end-event yields a record, the character data arrives with the
path still ending `Message > Text` while the fresh record's payload is
empty. -/
def evsNestedMsg : List XmlEvent :=
  [XmlEvent.StartElement "Log" [],
   XmlEvent.StartElement "Message" [], XmlEvent.StartElement "Text" [],
   XmlEvent.StartElement "Message" [], XmlEvent.EndElement "Message",
   XmlEvent.Characters "x",
   XmlEvent.EndElement "Text", XmlEvent.EndElement "Message",
   XmlEvent.EndElement "Log", XmlEvent.EndDocument]

/-! ## Helper lemmas -/

/-- Helper: `parse_node` never touches the path context. -/
theorem parse_node_parents (fs : String → Option (List Nat))
    (st : MessengerPlusParser) (name : String) (attrs : Attrs) (msg : Message) :
    (st.parse_node fs name attrs msg).fst.parents = st.parents := by
  unfold MessengerPlusParser.parse_node
  repeat' split
  all_goals rfl

/-- Helper: `parse_node` never touches `last_session_id`. -/
theorem parse_node_last (fs : String → Option (List Nat))
    (st : MessengerPlusParser) (name : String) (attrs : Attrs) (msg : Message) :
    (st.parse_node fs name attrs msg).fst.details.last_session_id =
      st.details.last_session_id := by
  unfold MessengerPlusParser.parse_node
  repeat' split
  all_goals rfl

/-- Helper: `parse_text` never touches the path context. -/
theorem parse_text_parents (st : MessengerPlusParser) (data : String)
    (msg : Message) :
    (st.parse_text data msg).fst.parents = st.parents := by
  unfold MessengerPlusParser.parse_text
  repeat' split
  all_goals rfl

/-- Helper: `parse_text` never touches `last_session_id`. -/
theorem parse_text_last (st : MessengerPlusParser) (data : String)
    (msg : Message) :
    (st.parse_text data msg).fst.details.last_session_id =
      st.details.last_session_id := by
  unfold MessengerPlusParser.parse_text
  repeat' split
  all_goals rfl

/-- Format B `parse_node` never touches the ancestor stack. -/
theorem parse_nodeB_parents (st : XmlParser) (name : String) (msg : Message)
    (attrs : Attrs) :
    (st.parse_node name msg attrs).fst.parents = st.parents := by
  unfold XmlParser.parse_node
  repeat' split
  all_goals rfl

/-- Format B `parse_node` never touches the `done` flag. -/
theorem parse_nodeB_done (st : XmlParser) (name : String) (msg : Message)
    (attrs : Attrs) :
    (st.parse_node name msg attrs).fst.done = st.done := by
  unfold XmlParser.parse_node
  repeat' split
  all_goals rfl

/-- Scanning digits is insensitive to input that lies beyond the point where
the scan stopped. -/
theorem readDigitsAuxExt (l : List Char) : ∀ (f a v : Nat) (c : Char)
    (rem e : List Char), readDigitsAux f a l = (v, c :: rem) →
    readDigitsAux f a (l ++ e) = (v, c :: (rem ++ e)) := by
  induction l with
  | nil =>
      intro f a v c rem e hres
      cases f <;> simp [readDigitsAux] at hres
  | cons x xs ih =>
      intro f a v c rem e hres
      cases f with
      | zero =>
          simp only [readDigitsAux, Prod.mk.injEq, List.cons.injEq] at hres ⊢
          obtain ⟨rfl, rfl, rfl⟩ := hres
          simp
      | succ g =>
          by_cases hd : x.isDigit
          · simp only [readDigitsAux, hd, if_pos] at hres ⊢
            exact ih _ _ _ _ _ _ hres
          · simp only [readDigitsAux, hd, Bool.false_eq_true, if_false,
              Prod.mk.injEq, List.cons.injEq] at hres ⊢
            obtain ⟨rfl, rfl, rfl⟩ := hres
            simp

/-- Helper: `readNum` is insensitive to input beyond the stopping character. -/
theorem readNumExt (m : Nat) (l : List Char) (v : Nat) (c : Char)
    (rem e : List Char) (hres : readNum m l = some (v, c :: rem)) :
    readNum m (l ++ e) = some (v, c :: (rem ++ e)) := by
  cases l with
  | nil => simp [readNum] at hres
  | cons x xs =>
      by_cases hd : x.isDigit
      · simp only [readNum, hd, if_pos, List.cons_append] at hres ⊢
        have := readDigitsAuxExt xs (m - 1) (x.toNat - 48) v c rem e
          (Option.some.injEq .. ▸ hres)
        simp [this]
      · simp [readNum, hd] at hres

/-- Helper: `expectChar` is insensitive to appended input once it has succeeded. -/
theorem expectCharExt (c : Char) (l rem e : List Char)
    (hres : expectChar c l = some rem) :
    expectChar c (l ++ e) = some (rem ++ e) := by
  cases l with
  | nil => simp [expectChar] at hres
  | cons x xs =>
      by_cases hx : x = c
      · simp only [expectChar, hx, if_pos, List.cons_append] at hres ⊢
        simp [Option.some.injEq .. ▸ hres]
      · simp [expectChar, hx] at hres

/-- A successful `expectChar` exposes the head of its input. -/
theorem expectCharInv (c : Char) (l rem : List Char)
    (hres : expectChar c l = some rem) : l = c :: rem := by
  cases l with
  | nil => simp [expectChar] at hres
  | cons x xs =>
      by_cases hx : x = c
      · subst hx
        simp only [expectChar, if_pos] at hres
        simp [Option.some.injEq .. ▸ hres]
      · simp [expectChar, hx] at hres

/-- A `"(H:M)"` parse that consumed its whole input still succeeds, leaving
the extension untouched, when further input is appended. -/
theorem parseParenHMCoreExt (l e : List Char) (v : Nat × Nat)
    (hres : parseParenHMCore l = some (v, [])) :
    parseParenHMCore (l ++ e) = some (v, e) := by
  cases h1 : expectChar '(' l with
  | none => simp [parseParenHMCore, h1] at hres
  | some cs1 =>
    simp only [parseParenHMCore, h1] at hres
    cases h2 : readNum 2 cs1 with
    | none => simp [h2] at hres
    | some p =>
      obtain ⟨hv, cs2⟩ := p
      simp only [h2] at hres
      by_cases h23 : 23 < hv
      · simp [h23] at hres
      · simp only [if_neg h23] at hres
        cases h3 : expectChar ':' cs2 with
        | none => simp [h3] at hres
        | some cs3 =>
          simp only [h3] at hres
          cases h4 : readNum 2 cs3 with
          | none => simp [h4] at hres
          | some q =>
            obtain ⟨mi, cs4⟩ := q
            simp only [h4] at hres
            by_cases h59 : 59 < mi
            · simp [h59] at hres
            · simp only [if_neg h59] at hres
              cases h5 : expectChar ')' cs4 with
              | none => simp [h5] at hres
              | some cs5 =>
                simp only [h5, Option.some.injEq, Prod.mk.injEq] at hres
                obtain ⟨rfl, rfl⟩ := hres
                have e1 := expectCharExt '(' l cs1 e h1
                have e2 : readNum 2 (cs1 ++ e) = some (hv, ':' :: (cs3 ++ e)) := by
                  rw [expectCharInv ':' cs2 cs3 h3] at h2
                  exact readNumExt 2 cs1 hv ':' cs3 e h2
                have e4 : readNum 2 (cs3 ++ e) = some (mi, ')' :: ([] ++ e)) := by
                  rw [expectCharInv ')' cs4 [] h5] at h4
                  exact readNumExt 2 cs3 mi ')' [] e h4
                have e3 : expectChar ':' (':' :: (cs3 ++ e)) = some (cs3 ++ e) := by
                  simp [expectChar]
                have e5 : expectChar ')' (')' :: e) = some e := by
                  simp [expectChar]
                simp [parseParenHMCore, e1, e2, e3, e4, e5, h23, h59]

/-- Inversion for `parseParenHM`: success means the core parser consumed the
whole string. -/
theorem parseParenHMInv (s : String) (h mi : Nat)
    (hres : parseParenHM s = some (h, mi)) :
    parseParenHMCore (chars s) = some ((h, mi), []) := by
  unfold parseParenHM at hres
  cases hc : parseParenHMCore (chars s) with
  | none => rw [hc] at hres; exact absurd hres (by simp)
  | some p =>
      obtain ⟨v, rem⟩ := p
      rw [hc] at hres
      cases rem with
      | nil =>
          simp only [Option.some.injEq] at hres
          rw [hres]
      | cons c cs => exact absurd hres (by simp)

/-- Decimal rendering round-trip for the two-digit scanner, on the range a
`second()` value can take. -/
theorem readNum_toString (n : Nat) (hn : n < 60) :
    readNum 2 (chars (toString n)) = some (n, []) := by
  revert hn
  revert n
  decide

/-- The composition at the heart of the Format A first-record timestamp: when
the header time is exactly `"(H:M)"`, appending `":" ++ seconds` and parsing
with `"(%H:%M):%S"` recovers the header hour and minute together with exactly
the appended seconds value. -/
theorem parseParenHMS_compose (data : String) (h mi sec : Nat)
    (hparse : parseParenHM data = some (h, mi)) (hsec : sec < 60) :
    parseParenHMS (data ++ ":" ++ toString sec) = some (h, mi, sec) := by
  have hcore := parseParenHMInv data h mi hparse
  have hchars : chars (data ++ ":" ++ toString sec) =
      chars data ++ (':' :: chars (toString sec)) := by
    simp [chars, String.data_append]
  have hext := parseParenHMCoreExt (chars data)
    (':' :: chars (toString sec)) (h, mi) hcore
  have e1 : expectChar ':' (':' :: chars (toString sec)) =
      some (chars (toString sec)) := by simp [expectChar]
  have h59 : ¬ 59 < sec := by omega
  unfold parseParenHMS
  rw [hchars, hext]
  simp [e1, readNum_toString sec hsec, h59]

/-- Effect of `swap_remove(0)` after pushing a fresh `System` notice onto a payload
whose first entry is a `System` placeholder: the new notice lands at index 0
and the entries between placeholder and notice are kept. -/
theorem swapRemoveZero_push (s0 d : String) (rest : List Data) :
    swapRemoveZero (Data.System s0 :: (rest ++ [Data.System d])) =
      Data.System d :: rest := by
  cases rest with
  | nil => rfl
  | cons r rs =>
      simp only [List.cons_append, swapRemoveZero]
      rw [show r :: (rs ++ [Data.System d]) = (r :: rs) ++ [Data.System d] by simp]
      rw [List.getLastD_concat, List.dropLast_concat]

/-! ## Claims -/

/-- C7: for Format B, the `Log` start-element populates
`first_session_id`/`last_session_id` from the `FirstSessionID`/`LastSessionID`
attributes, each defaulting to `"0"` when absent; and the concrete archive
whose `Log` carries neither attribute and has no `Message` elements yields
zero records and final details with both session ids `"0"`, available once
end-of-document is reached. -/
theorem c7_log_session_ids :
    (∀ (st : XmlParser) (msg : Message) (attrs : Attrs),
      st.parse_node "Log" msg attrs =
        ({ st with details :=
             { st.details with
                 first_session_id := (attrGet attrs "FirstSessionID").getD "0"
                 last_session_id := (attrGet attrs "LastSessionID").getD "0" } },
         msg))
    ∧ XmlParser.process stB0 {} evsScrappy =
        ([],
         { details := { recipient_id := "scrappy", file_type := FileType.XML,
                        first_session_id := "0", last_session_id := "0" }
           parents := []
           done := true },
         RunEnd.endDoc)
    ∧ XmlParser.getDetails
        { details := { recipient_id := "scrappy", file_type := FileType.XML,
                       first_session_id := "0", last_session_id := "0" }
          parents := []
          done := true } =
        some { recipient_id := "scrappy", file_type := FileType.XML,
               first_session_id := "0", last_session_id := "0" } :=
  ⟨fun _st _msg _attrs => rfl, by decide, by decide⟩

/-- C4: for a Format B `Message` element, the record's timezone offset is set
to the whole-minute difference `local − utc` exactly when the `DateTime`
attribute parses under `"%Y-%m-%dT%H:%M:%S"` (prefix, remainder allowed) and
the `Time` attribute parses as a time of day; in every other case — either
attribute absent (the lookup defaults to `""`, which parses as neither) or
unparsable — the offset stays unset, and no error is raised (the handler is
total). -/
theorem c4_timezone_offset (attrs : Attrs) (message : Message)
    (hnone : message.timezone_offset = none) :
    (XmlParser.handle_message_datetime attrs message).datetime =
        (attrGet attrs "DateTime").getD ""
    ∧ (∀ utc rem localT,
        parseAndRemainder ((attrGet attrs "DateTime").getD "") = some (utc, rem) →
        timeFromStr ((attrGet attrs "Time").getD "") = some localT →
        (XmlParser.handle_message_datetime attrs message).timezone_offset =
          some (Int.tdiv ((localT : Int) - (utc : Int)) 60))
    ∧ (parseAndRemainder ((attrGet attrs "DateTime").getD "") = none →
        (XmlParser.handle_message_datetime attrs message).timezone_offset = none)
    ∧ (∀ utc rem,
        parseAndRemainder ((attrGet attrs "DateTime").getD "") = some (utc, rem) →
        timeFromStr ((attrGet attrs "Time").getD "") = none →
        (XmlParser.handle_message_datetime attrs message).timezone_offset = none)
    ∧ parseAndRemainder "" = none ∧ timeFromStr "" = none := by
  refine ⟨?_, ?_, ?_, ?_, by decide, by decide⟩
  · unfold XmlParser.handle_message_datetime
    cases hdt : parseAndRemainder ((attrGet attrs "DateTime").getD "") with
    | none => simp [hdt]
    | some p =>
        obtain ⟨utc, rem⟩ := p
        cases ht : timeFromStr ((attrGet attrs "Time").getD "") with
        | none => simp [hdt, ht]
        | some localT => simp [hdt, ht]
  · intro utc rem localT hdt ht
    unfold XmlParser.handle_message_datetime
    simp [hdt, ht]
  · intro hdt
    unfold XmlParser.handle_message_datetime
    simp [hdt, hnone]
  · intro utc rem hdt ht
    unfold XmlParser.handle_message_datetime
    simp [hdt, ht, hnone]

/-- C4 witness: on the sample attributes of the repository's own test
(`DateTime="2009-04-06T19:40:41.851Z"`, `Time="21:40:41"`) the offset comes
out as 120 minutes; with an unparsable `DateTime` it stays unset. -/
theorem c4_timezone_offset_witness :
    (XmlParser.handle_message_datetime
      [("DateTime", "2009-04-06T19:40:41.851Z"), ("Time", "21:40:41")]
      {}).timezone_offset = some 120
    ∧ (XmlParser.handle_message_datetime
      [("DateTime", "nonsense"), ("Time", "21:40:41")] {}).timezone_offset =
        none := by
  constructor
  · have h := (c4_timezone_offset
      [("DateTime", "2009-04-06T19:40:41.851Z"), ("Time", "21:40:41")]
      {} rfl).2.1 70841 ".851Z" 78041 (by decide) (by decide)
    exact h.trans (by decide)
  · exact (c4_timezone_offset
      [("DateTime", "nonsense"), ("Time", "21:40:41")] {} rfl).2.2.1 (by decide)

/-- C5: character data under the Format A header cell resolves sender and
receiver by a substring test of the current owner name against the text:
containment gives sender = owner / receiver = counterpart, otherwise the
roles are swapped; and the empty owner name is contained in every text (so
it always selects the owner as sender). -/
theorem c5_sender_receiver (st : MessengerPlusParser) (data : String)
    (message : Message)
    (hpath : st.parents.fst = ".html.body.div.table.tbody.tr.th") :
    st.parse_text data message =
      (if strContains data st.session.owner then
        (st,
         { message with sender_friendly_name := st.session.owner
                        receiver_friendly_name := st.session.recipient },
         none)
      else
        (st,
         { message with sender_friendly_name := st.session.recipient
                        receiver_friendly_name := st.session.owner },
         none))
    ∧ ∀ s : String, strContains s "" = true := by
  constructor
  · unfold MessengerPlusParser.parse_text
    rw [hpath]
    rfl
  · intro s
    obtain ⟨l⟩ := s
    show listInfix [] l = true
    cases l <;> rfl

/-- C5 witness: with owner `"Alice"` and counterpart `"Bob"`, the header text
`"Bob says:"` (which does not contain `"Alice"`) makes Bob the sender and
Alice the receiver; and the empty owner name is a substring of it. -/
theorem c5_sender_receiver_witness :
    stHeader.parse_text "Bob says:" {} =
      (stHeader,
       { sender_friendly_name := "Bob", receiver_friendly_name := "Alice" },
       none)
    ∧ strContains "Bob says:" "" = true := by
  constructor
  · exact ((c5_sender_receiver stHeader "Bob says:" {} rfl).1).trans (by decide)
  · exact (c5_sender_receiver stHeader "Bob says:" {} rfl).2 "Bob says:"

/-- C2: at the Format A header time span, a parser state that has not yet
emitted a header time (`first_message = true`) combines the `"(HH:MM)"` text
with the seconds component of the current session date and formats with
second-level precision, clearing the flag; any later header time
(`first_message = false`) is parsed from `"(HH:MM)"` alone and formatted with
minute-level precision, with no seconds component; and a freshly constructed
parser always starts with the flag set, so the first record of the stream
gets the second-level timestamp. -/
theorem c2_timestamp_precision (st : MessengerPlusParser) (message : Message)
    (data : String) (h mi : Nat)
    (hpath : st.parents.fst = ".html.body.div.table.tbody.tr.th.span")
    (hsec : st.session.date.second < 60)
    (hparse : parseParenHM data = some (h, mi)) :
    (st.first_message = true →
      st.parse_text data message =
        ({ st with first_message := false },
         { message with datetime :=
             fmtSecondLevel st.session.date h mi st.session.date.second },
         none))
    ∧ (st.first_message = false →
      st.parse_text data message =
        (st,
         { message with datetime := fmtMinuteLevel st.session.date h mi },
         none))
    ∧ (∀ (canOpen : Bool) (path : String) (st0 : MessengerPlusParser),
        MessengerPlusParser.new canOpen path = Except.ok st0 →
        st0.first_message = true) := by
  refine ⟨?_, ?_, ?_⟩
  · intro hfm
    have hc := parseParenHMS_compose data h mi st.session.date.second hparse hsec
    unfold MessengerPlusParser.parse_text
    rw [hpath, hfm]
    simp [hc]
  · intro hfm
    unfold MessengerPlusParser.parse_text
    rw [hpath, hfm]
    simp [hparse]
  · intro canOpen path st0 hnew
    unfold MessengerPlusParser.new at hnew
    by_cases hco : canOpen = false
    · rw [if_pos hco] at hnew
      exact absurd hnew (by simp)
    · rw [if_neg hco] at hnew
      cases hp : parentDir path with
      | none => simp [hp] at hnew
      | some dir =>
          simp only [hp, Except.ok.injEq] at hnew
          rw [← hnew]

/-- C2 witness: in the sample session (seconds component 21), the first
header time `"(19:30)"` yields `"2009-08-05T19:30:21"` and clears the flag;
once the flag is cleared, `"(19:31)"` yields `"2009-08-05T19:31"`. -/
theorem c2_timestamp_precision_witness :
    stSpan.parse_text "(19:30)" {} =
      ({ stSpan with first_message := false },
       { datetime := "2009-08-05T19:30:21" },
       none)
    ∧ ({ stSpan with first_message := false }).parse_text "(19:31)" {} =
      ({ stSpan with first_message := false },
       { datetime := "2009-08-05T19:31" },
       none) := by
  constructor
  · exact ((c2_timestamp_precision stSpan {} "(19:30)" 19 30 rfl (by decide)
      (by decide)).1 rfl).trans (by decide)
  · exact ((c2_timestamp_precision { stSpan with first_message := false } {}
      "(19:31)" 19 31 rfl (by decide) (by decide)).2.1 rfl).trans (by decide)

/-- C3 counterexample: a well-formed Format A archive whose system-flagged
row also contains an `img` element yields a record whose payload holds the
`SystemNotice` *and* an `Image` entry — the `SystemNotice` is not the only
payload entry of the record, contrary to the claim. -/
theorem c3_counterexample :
    (MessengerPlusParser.process fsOneImg stA0 {} evsSysImg).fst =
      [Except.ok
        { datetime := "", timezone_offset := none, session_id := ""
          sender_friendly_name := "", receiver_friendly_name := ""
          data := [Data.System "sys notice",
                   Data.Image { src := "x.png", alt := "", content := [9] }] }]
    ∧ (MessengerPlusParser.process fsOneImg stA0 {} evsSysImg).snd.snd =
        RunEnd.endDoc := ⟨by decide, by decide⟩

/-- C3 amended: a row flagged with the system class seeds the payload with
the single placeholder `SystemNotice("")`, and character data under the
row's cell, when the payload's first entry is a `SystemNotice`, replaces that
placeholder in place (push then `swap_remove(0)`) rather than appending a
further entry — but payload entries pushed between the placeholder and the
notice (images) survive the replacement, so the `SystemNotice` need not be
the only payload entry of the record. -/
theorem c3_system_notice (fs : String → Option (List Nat))
    (st : MessengerPlusParser) (attrs : Attrs) (message : Message) :
    (strEndsWith st.parents.fst "html.body.div.table.tbody" = true →
      (attrGet attrs "class" == some "msgplus") = true →
      st.parse_node fs "tr" attrs message =
        (st,
         { message with session_id := st.session.id
                        data := [Data.System ""] },
         none))
    ∧ (∀ (data s0 : String) (rest : List Data),
        st.parents.fst = ".html.body.div.table.tbody.tr.td" →
        message.data = Data.System s0 :: rest →
        st.parse_text data message =
          (st, { message with data := Data.System data :: rest }, none)) := by
  constructor
  · intro h1 h2
    unfold MessengerPlusParser.parse_node
    simp [h1, h2]
  · intro data s0 rest hp hd
    unfold MessengerPlusParser.parse_text
    rw [hp]
    simp [hd, swapRemoveZero_push]

/-- C3 witness: a system row seeds the placeholder; character data replaces
the placeholder in place while the `Image` pushed in between is kept. -/
theorem c3_system_notice_witness :
    ({ stA0 with
        parents := (".html.body.div.table.tbody", []) }).parse_node fsEmpty
        "tr" [("class", "msgplus")] {} =
      ({ stA0 with parents := (".html.body.div.table.tbody", []) },
       { session_id := "", data := [Data.System ""] },
       none)
    ∧ ({ stA0 with
          parents := (".html.body.div.table.tbody.tr.td", []) }).parse_text
          "notice"
          { data := [Data.System "",
                     Data.Image { src := "x", alt := "", content := [9] }] } =
      ({ stA0 with parents := (".html.body.div.table.tbody.tr.td", []) },
       { data := [Data.System "notice",
                  Data.Image { src := "x", alt := "", content := [9] }] },
       none) := by
  constructor
  · exact ((c3_system_notice fsEmpty
      { stA0 with parents := (".html.body.div.table.tbody", []) }
      [("class", "msgplus")] {}).1 (by decide) (by decide)).trans (by decide)
  · exact ((c3_system_notice fsEmpty
      { stA0 with parents := (".html.body.div.table.tbody.tr.td", []) } []
      { data := [Data.System "",
                 Data.Image { src := "x", alt := "", content := [9] }] }).2
      "notice" "" [Data.Image { src := "x", alt := "", content := [9] }]
      rfl rfl).trans (by decide)

/-- C8: when a Format A session-marker `div` carries an identifier attribute
that does not parse as `Session_%Y-%m-%dT%H-%M-%S`, `parse_node` fails, and
the pull consuming that start-event returns the parse error as its result:
the error is the item yielded for that pull, the partially built record is
dropped (the continuation starts from a fresh default record), and the path
context is not extended with the failing element. -/
theorem c8_session_marker_error (fs : String → Option (List Nat))
    (st : MessengerPlusParser) (attrs : Attrs) (message : Message)
    (id : String) (rest : List XmlEvent)
    (hpath : strEndsWith st.parents.fst "html.body" = true)
    (hcls : (attrGet attrs "class" == some "mplsession") = true)
    (hid : attrGet attrs "id" = some id)
    (hfail : parseSessionId id = none) :
    st.parse_node fs "div" attrs message =
      ({ st with session := { st.session with id := id } }, message,
       some "premature end of input")
    ∧ MessengerPlusParser.process fs st message
        (XmlEvent.StartElement "div" attrs :: rest) =
      (Except.error "premature end of input" ::
         (MessengerPlusParser.process fs
           { st with session := { st.session with id := id } } {} rest).fst,
       (MessengerPlusParser.process fs
         { st with session := { st.session with id := id } } {} rest).snd) := by
  have h1 : st.parse_node fs "div" attrs message =
      ({ st with session := { st.session with id := id } }, message,
       some "premature end of input") := by
    unfold MessengerPlusParser.parse_node
    simp [hpath, hcls, hid, hfail]
  exact ⟨h1, by simp only [MessengerPlusParser.process, h1]⟩

/-- C8 witness: the identifier `"Session_BAD"` fails the strict parse; the
pull returns the error and no record, and the run then finishes at
end-of-document (where the unparsable identifier, already copied into the
session state, becomes the final `last_session_id`). -/
theorem c8_session_marker_error_witness :
    MessengerPlusParser.process fsEmpty
      { stA0 with parents := (".html.body", []) } {}
      [XmlEvent.StartElement "div"
         [("class", "mplsession"), ("id", "Session_BAD")],
       XmlEvent.EndDocument] =
    ([Except.error "premature end of input"],
     { details := { recipient_id := "a", file_type := FileType.MessengerPlus,
                    last_session_id := "Session_BAD" }
       parents := (".html.body", [])
       session := { id := "Session_BAD" }
       directory := "d"
       first_message := true },
     RunEnd.endDoc) := by
  exact ((c8_session_marker_error fsEmpty
    { stA0 with parents := (".html.body", []) }
    [("class", "mplsession"), ("id", "Session_BAD")] {} "Session_BAD"
    [XmlEvent.EndDocument] (by decide) (by decide) (by decide)
    (by decide)).2).trans (by decide)

/-- C9: with a readable archive file, constructing a Format A parser
succeeds exactly when the source path has a containing directory
(`Path::parent`), and on success `recipient_id` is the path's file stem.
The failure happens at construction, before any record is produced. -/
theorem c9_construction :
    (∀ path : String,
      (∃ st, MessengerPlusParser.new true path = Except.ok st) ↔
        parentDir path ≠ none)
    ∧ (∀ (path : String) (st : MessengerPlusParser),
        MessengerPlusParser.new true path = Except.ok st →
        st.details.recipient_id = fileStem path) := by
  constructor
  · intro path
    unfold MessengerPlusParser.new
    cases hp : parentDir path with
    | none => simp [hp]
    | some dir => simp [hp]
  · intro path st hnew
    unfold MessengerPlusParser.new at hnew
    cases hp : parentDir path with
    | none => simp [hp] at hnew
    | some dir =>
        rw [if_neg (show ¬ (true = false) by simp)] at hnew
        simp only [hp, Except.ok.injEq] at hnew
        rw [← hnew]

/-- C9 witness: `test/a.html` has a containing directory, so construction
succeeds with `recipient_id = "a"`; the root path `/` has none, so
construction fails. -/
theorem c9_construction_witness :
    (∃ st, MessengerPlusParser.new true "test/a.html" = Except.ok st)
    ∧ ¬ (∃ st, MessengerPlusParser.new true "/" = Except.ok st)
    ∧ ({ details := { recipient_id := "a",
                      file_type := FileType.MessengerPlus }
         parents := ("", [])
         session := {}
         directory := "test"
         first_message := true } : MessengerPlusParser).details.recipient_id =
        fileStem "test/a.html" := by
  refine ⟨?_, ?_, ?_⟩
  · exact (c9_construction.1 "test/a.html").mpr (by decide)
  · intro hex
    exact (c9_construction.1 "/").mp hex (by decide)
  · exact c9_construction.2 "test/a.html" _ (by decide)

/-- C10 counterexample: in a well-formed Format B archive with a `Message`
element nested inside a `Text` element, the character data after the inner
`Message` end arrives with the path ending `Message > Text` while the fresh
record under construction has an *empty* payload — contrary to the claim —
and instead of overwriting anything the iterator ends mid-stream
(`RunEnd.halted`), never reaching end-of-document. -/
theorem c10_counterexample :
    XmlParser.process stB0 {} evsNestedMsg =
      ([Except.ok
         { datetime := "", timezone_offset := none, session_id := "0"
           sender_friendly_name := "", receiver_friendly_name := ""
           data := [Data.Text { style := "", content := "" }] }],
       { details := { recipient_id := "scrappy", file_type := FileType.XML,
                      first_session_id := "0", last_session_id := "0" }
         parents := ["Log", "Message", "Text"]
         done := false },
       RunEnd.halted)
    ∧ List.isSuffixOf ["Message", "Text"] ["Log", "Message", "Text"] = true :=
  ⟨by decide, by decide⟩

/-- C10 amended: when a character-data event arrives while the ancestor path
ends `Message > Text` and the record under construction has a non-empty
payload, the last payload entry (a `Text` in any Format B run, since only
`Text` start-elements push payload entries) has its content overwritten with
the chunk — so consecutive chunks inside one `Text` element leave the last
chunk, not a concatenation; when the payload is empty, the pull instead
returns end-of-stream (`message.data.last_mut()?` makes `next` return
`None`). -/
theorem c10_text_overwrite (st : XmlParser) (message : Message)
    (data : String) (rest : List XmlEvent) :
    (∀ (pre : List Data) (t : Text),
      List.isSuffixOf ["Message", "Text"] st.parents = true →
      message.data = pre ++ [Data.Text t] →
      XmlParser.process st message (XmlEvent.Characters data :: rest) =
        XmlParser.process st
          { message with data := pre ++ [Data.Text { t with content := data }] }
          rest)
    ∧ (List.isSuffixOf ["Message", "Text"] st.parents = true →
      message.data = [] →
      XmlParser.process st message (XmlEvent.Characters data :: rest) =
        ([], st, RunEnd.halted))
    ∧ (∀ (pre : List Data) (t : Text) (d2 : String),
      List.isSuffixOf ["Message", "Text"] st.parents = true →
      message.data = pre ++ [Data.Text t] →
      XmlParser.process st message
          (XmlEvent.Characters data :: XmlEvent.Characters d2 :: rest) =
        XmlParser.process st
          { message with data := pre ++ [Data.Text { t with content := d2 }] }
          rest) := by
  have key : ∀ (msg : Message) (pre : List Data) (t : Text) (dd : String)
      (rest' : List XmlEvent),
      List.isSuffixOf ["Message", "Text"] st.parents = true →
      msg.data = pre ++ [Data.Text t] →
      XmlParser.process st msg (XmlEvent.Characters dd :: rest') =
        XmlParser.process st
          { msg with data := pre ++ [Data.Text { t with content := dd }] }
          rest' := by
    intro msg pre t dd rest' hsuf hd
    simp only [XmlParser.process, hsuf, if_pos]
    rw [hd]
    simp [List.getLast?_concat, List.dropLast_concat]
  refine ⟨fun pre t hsuf hd => key message pre t data rest hsuf hd, ?_, ?_⟩
  · intro hsuf hd
    simp only [XmlParser.process, hsuf, if_pos]
    rw [hd]
    rfl
  · intro pre t d2 hsuf hd
    have h1 := key message pre t data (XmlEvent.Characters d2 :: rest) hsuf hd
    have h2 := key
      { message with data := pre ++ [Data.Text { t with content := data }] }
      pre { t with content := data } d2 rest hsuf rfl
    exact h1.trans h2

/-- C10 witness: two chunks inside one `Text` element leave the second chunk
as the content of the single `Text` payload of the yielded record; and a
chunk arriving at `Message > Text` over an empty payload ends the stream. -/
theorem c10_text_overwrite_witness :
    XmlParser.process
      { details := {}, parents := ["Message", "Text"], done := false }
      { data := [Data.Text { style := "", content := "a" }] }
      [XmlEvent.Characters "x", XmlEvent.Characters "y",
       XmlEvent.EndElement "Message", XmlEvent.EndDocument] =
      ([Except.ok { data := [Data.Text { style := "", content := "y" }] }],
       { details := {}, parents := ["Message"], done := true },
       RunEnd.endDoc)
    ∧ XmlParser.process
      { details := {}, parents := ["Message", "Text"], done := false } {}
      [XmlEvent.Characters "x"] =
      ([], { details := {}, parents := ["Message", "Text"], done := false },
       RunEnd.halted) := by
  constructor
  · exact ((c10_text_overwrite
      { details := {}, parents := ["Message", "Text"], done := false }
      { data := [Data.Text { style := "", content := "a" }] } "x"
      [XmlEvent.EndElement "Message", XmlEvent.EndDocument]).2.2
      [] { style := "", content := "a" } "y" (by decide) rfl).trans (by decide)
  · exact (c10_text_overwrite
      { details := {}, parents := ["Message", "Text"], done := false } {} "x"
      []).2.1 (by decide) rfl

/-- C6: over any event list that is driven to end-of-document, the number of
yielded items equals the number of record-boundary elements: for Format A
(when no pull errored) the `tr` end-events whose popped path ends at the
table body, for Format B the `Message` end-events. -/
theorem c6_record_count :
    (∀ (fs : String → Option (List Nat)) (st : MessengerPlusParser)
        (msg : Message) (evs : List XmlEvent)
        (out : List (Except String Message)) (st' : MessengerPlusParser),
      MessengerPlusParser.process fs st msg evs = (out, st', RunEnd.endDoc) →
      (∀ r ∈ out, exOk r = true) →
      out.length = countTrEnds st.parents.fst evs)
    ∧ (∀ (st : XmlParser) (msg : Message) (evs : List XmlEvent)
        (out : List (Except String Message)) (st' : XmlParser),
      XmlParser.process st msg evs = (out, st', RunEnd.endDoc) →
      out.length = countMsgEnds evs) := by
  constructor
  · intro fs st msg evs
    induction evs generalizing st msg with
    | nil =>
        intro out st' h _hok
        simp [MessengerPlusParser.process] at h
    | cons e rest ih =>
        intro out st' h hok
        cases e with
        | StartElement name attrs =>
            simp only [MessengerPlusParser.process] at h
            cases hpn : st.parse_node fs name attrs msg with
            | mk st1 p =>
                cases p with
                | mk msg1 err =>
                    cases err with
                    | none =>
                        simp only [hpn] at h
                        have hrec := ih _ _ _ _ h hok
                        have hp : st1.parents = st.parents := by
                          have hq := parse_node_parents fs st name attrs msg
                          rw [hpn] at hq
                          exact hq
                        simp only [countTrEnds]
                        rw [show st.parents.fst = st1.parents.fst from
                          (congrArg Prod.fst hp).symm]
                        exact hrec
                    | some e0 =>
                        simp only [hpn, Prod.mk.injEq] at h
                        obtain ⟨h1, -⟩ := h
                        have := hok (Except.error e0)
                          (by rw [← h1]; exact List.mem_cons_self _ _)
                        simp [exOk] at this
        | Characters data =>
            simp only [MessengerPlusParser.process] at h
            cases hpt : st.parse_text data msg with
            | mk st1 p =>
                cases p with
                | mk msg1 err =>
                    cases err with
                    | none =>
                        simp only [hpt] at h
                        have hrec := ih _ _ _ _ h hok
                        have hp : st1.parents = st.parents := by
                          have hq := parse_text_parents st data msg
                          rw [hpt] at hq
                          exact hq
                        simp only [countTrEnds]
                        rw [show st.parents.fst = st1.parents.fst from
                          (congrArg Prod.fst hp).symm]
                        exact hrec
                    | some e0 =>
                        simp only [hpt, Prod.mk.injEq] at h
                        obtain ⟨h1, -⟩ := h
                        have := hok (Except.error e0)
                          (by rw [← h1]; exact List.mem_cons_self _ _)
                        simp [exOk] at this
        | EndElement name =>
            simp only [MessengerPlusParser.process] at h
            by_cases hc : (name == "tr" &&
                strEndsWith (popPath st.parents.fst)
                  "html.body.div.table.tbody") = true
            · rw [if_pos hc] at h
              simp only [Prod.mk.injEq] at h
              obtain ⟨h1, h2⟩ := h
              have hX : MessengerPlusParser.process fs
                  { st with parents := (popPath st.parents.fst, st.parents.snd) }
                  {} rest =
                  ((MessengerPlusParser.process fs
                    { st with parents := (popPath st.parents.fst, st.parents.snd) }
                    {} rest).fst, st', RunEnd.endDoc) := by
                rw [← h2]
              have hrec : (MessengerPlusParser.process fs
                  { st with parents := (popPath st.parents.fst, st.parents.snd) }
                  {} rest).fst.length =
                  countTrEnds (popPath st.parents.fst) rest :=
                ih _ _ _ _ hX
                  (fun r hr => hok r (by rw [← h1]; exact List.mem_cons_of_mem _ hr))
              rw [← h1]
              simp only [countTrEnds, hc, if_pos, List.length_cons]
              omega
            · rw [if_neg hc] at h
              have hrec := ih _ _ _ _ h hok
              simp only [countTrEnds]
              rw [if_neg hc]
              simpa using hrec
        | EndDocument =>
            simp only [MessengerPlusParser.process, Prod.mk.injEq] at h
            obtain ⟨h1, -⟩ := h
            rw [← h1]
            rfl
  · intro st msg evs
    induction evs generalizing st msg with
    | nil =>
        intro out st' h
        simp [XmlParser.process] at h
    | cons e rest ih =>
        intro out st' h
        cases e with
        | StartElement name attrs =>
            simp only [XmlParser.process] at h
            have hrec := ih _ _ _ _ h
            exact hrec
        | Characters data =>
            simp only [XmlParser.process] at h
            by_cases hc : List.isSuffixOf ["Message", "Text"] st.parents = true
            · rw [if_pos hc] at h
              cases hl : msg.data.getLast? with
              | none =>
                  simp only [hl] at h
                  simp at h
              | some d =>
                  cases d with
                  | Text t =>
                      simp only [hl] at h
                      exact ih _ _ _ _ h
                  | Image i =>
                      simp only [hl] at h
                      exact ih _ _ _ _ h
                  | System s =>
                      simp only [hl] at h
                      exact ih _ _ _ _ h
            · rw [if_neg hc] at h
              exact ih _ _ _ _ h
        | EndElement name =>
            simp only [XmlParser.process] at h
            by_cases hc : (name == "Message") = true
            · rw [if_pos hc] at h
              simp only [Prod.mk.injEq] at h
              obtain ⟨h1, h2⟩ := h
              have hX : XmlParser.process
                  { st with parents := st.parents.dropLast } {} rest =
                  ((XmlParser.process
                    { st with parents := st.parents.dropLast } {} rest).fst,
                   st', RunEnd.endDoc) := by
                rw [← h2]
              have hrec : (XmlParser.process
                  { st with parents := st.parents.dropLast } {} rest).fst.length =
                  countMsgEnds rest := ih _ _ _ _ hX
              rw [← h1]
              simp only [countMsgEnds, hc, if_pos, List.length_cons]
              omega
            · rw [if_neg hc] at h
              have hrec := ih _ _ _ _ h
              simp only [countMsgEnds]
              rw [if_neg hc]
              simpa using hrec
        | EndDocument =>
            simp only [XmlParser.process, Prod.mk.injEq] at h
            obtain ⟨h1, -⟩ := h
            rw [← h1]
            rfl

/-- C6 witness: a one-row Format A archive yields exactly one record (one
qualifying `tr` end-event); a two-`Message` Format B archive yields exactly
two. -/
theorem c6_record_count_witness :
    ((MessengerPlusParser.process fsEmpty stA0 {} evsOneRow).fst).length =
      countTrEnds "" evsOneRow
    ∧ ((XmlParser.process stB0 {} evsTwoMsgs).fst).length =
      countMsgEnds evsTwoMsgs := by
  constructor
  · exact c6_record_count.1 fsEmpty stA0 {} evsOneRow
      (MessengerPlusParser.process fsEmpty stA0 {} evsOneRow).fst
      (MessengerPlusParser.process fsEmpty stA0 {} evsOneRow).snd.fst
      (by decide) (by decide)
  · exact c6_record_count.2 stB0 {} evsTwoMsgs
      (XmlParser.process stB0 {} evsTwoMsgs).fst
      (XmlParser.process stB0 {} evsTwoMsgs).snd.fst
      (by decide)

/-- C1 counterexample: a well-formed Format A archive containing no session
markers is driven to end-of-document, yet the details query still answers
"unavailable" (`none`) afterwards — the Format A query is gated on a
non-empty `last_session_id`, which such an archive never produces —
contradicting the claim that after end-of-document the frozen details are
returned for every well-formed archive. -/
theorem c1_counterexample :
    (MessengerPlusParser.process fsEmpty stA0 {} evsEmptyA).snd.snd =
      RunEnd.endDoc
    ∧ (MessengerPlusParser.process fsEmpty stA0 {}
        evsEmptyA).snd.fst.getDetails = none :=
  ⟨by decide, by decide⟩

/-- C1 amended: for both parsers the details query answers "unavailable"
(`none`) at every point before the event stream has reported
end-of-document (any run that stops without consuming `EndDocument` leaves
the query at `none`, provided it started there).  After end-of-document,
Format B always returns the frozen details; Format A returns them exactly
when the final `last_session_id` (the session id captured at end-of-document)
is non-empty — an archive with no session marker leaves the query at `none`
even after end-of-document.  The query is a pure function of the final
state, so repeated queries are identical. -/
theorem c1_details_availability :
    (∀ (fs : String → Option (List Nat)) (st : MessengerPlusParser)
        (msg : Message) (evs : List XmlEvent)
        (out : List (Except String Message)) (st' : MessengerPlusParser)
        (e : RunEnd),
      st.details.last_session_id = "" →
      MessengerPlusParser.process fs st msg evs = (out, st', e) →
      e ≠ RunEnd.endDoc →
      st'.getDetails = none)
    ∧ (∀ (fs : String → Option (List Nat)) (st : MessengerPlusParser)
        (msg : Message) (evs : List XmlEvent)
        (out : List (Except String Message)) (st' : MessengerPlusParser),
      MessengerPlusParser.process fs st msg evs = (out, st', RunEnd.endDoc) →
      (st'.details.last_session_id = "" → st'.getDetails = none)
      ∧ (st'.details.last_session_id ≠ "" →
          st'.getDetails = some st'.details))
    ∧ (∀ (st : XmlParser) (msg : Message) (evs : List XmlEvent)
        (out : List (Except String Message)) (st' : XmlParser) (e : RunEnd),
      st.done = false →
      XmlParser.process st msg evs = (out, st', e) →
      e ≠ RunEnd.endDoc →
      st'.getDetails = none)
    ∧ (∀ (st : XmlParser) (msg : Message) (evs : List XmlEvent)
        (out : List (Except String Message)) (st' : XmlParser),
      XmlParser.process st msg evs = (out, st', RunEnd.endDoc) →
      st'.getDetails = some st'.details) := by
  refine ⟨?_, ?_, ?_, ?_⟩
  · intro fs st msg evs
    induction evs generalizing st msg with
    | nil =>
        intro out st' e hlast h hne
        simp only [MessengerPlusParser.process, Prod.mk.injEq] at h
        obtain ⟨-, h2, -⟩ := h
        rw [← h2]
        unfold MessengerPlusParser.getDetails
        simp [hlast]
    | cons ev rest ih =>
        intro out st' e hlast h hne
        cases ev with
        | StartElement name attrs =>
            simp only [MessengerPlusParser.process] at h
            cases hpn : st.parse_node fs name attrs msg with
            | mk st1 p =>
                cases p with
                | mk msg1 err =>
                    have hl1 : st1.details.last_session_id = "" := by
                      have hq := parse_node_last fs st name attrs msg
                      rw [hpn] at hq
                      rw [hq, hlast]
                    cases err with
                    | none =>
                        simp only [hpn] at h
                        refine ih _ _ _ _ _ ?_ h hne
                        exact hl1
                    | some e0 =>
                        simp only [hpn, Prod.mk.injEq] at h
                        obtain ⟨-, h2⟩ := h
                        have hX : MessengerPlusParser.process fs st1 {} rest =
                            ((MessengerPlusParser.process fs st1 {} rest).fst,
                             st', e) := by
                          rw [← h2]
                        exact ih _ _ _ _ _ hl1 hX hne
        | Characters data =>
            simp only [MessengerPlusParser.process] at h
            cases hpt : st.parse_text data msg with
            | mk st1 p =>
                cases p with
                | mk msg1 err =>
                    have hl1 : st1.details.last_session_id = "" := by
                      have hq := parse_text_last st data msg
                      rw [hpt] at hq
                      rw [hq, hlast]
                    cases err with
                    | none =>
                        simp only [hpt] at h
                        exact ih _ _ _ _ _ hl1 h hne
                    | some e0 =>
                        simp only [hpt, Prod.mk.injEq] at h
                        obtain ⟨-, h2⟩ := h
                        have hX : MessengerPlusParser.process fs st1 {} rest =
                            ((MessengerPlusParser.process fs st1 {} rest).fst,
                             st', e) := by
                          rw [← h2]
                        exact ih _ _ _ _ _ hl1 hX hne
        | EndElement name =>
            simp only [MessengerPlusParser.process] at h
            by_cases hc : (name == "tr" &&
                strEndsWith (popPath st.parents.fst)
                  "html.body.div.table.tbody") = true
            · rw [if_pos hc] at h
              simp only [Prod.mk.injEq] at h
              obtain ⟨-, h2⟩ := h
              have hX : MessengerPlusParser.process fs
                  { st with parents := (popPath st.parents.fst, st.parents.snd) }
                  {} rest =
                  ((MessengerPlusParser.process fs
                    { st with parents := (popPath st.parents.fst, st.parents.snd) }
                    {} rest).fst, st', e) := by
                rw [← h2]
              refine ih _ _ _ _ _ ?_ hX hne
              exact hlast
            · rw [if_neg hc] at h
              refine ih _ _ _ _ _ ?_ h hne
              exact hlast
        | EndDocument =>
            simp only [MessengerPlusParser.process, Prod.mk.injEq] at h
            obtain ⟨-, -, h3⟩ := h
            exact absurd h3.symm hne
  · intro fs st msg evs out st' _h
    constructor
    · intro h0
      unfold MessengerPlusParser.getDetails
      simp [h0]
    · intro h0
      unfold MessengerPlusParser.getDetails
      simp [h0]
  · intro st msg evs
    induction evs generalizing st msg with
    | nil =>
        intro out st' e hdone h hne
        simp only [XmlParser.process, Prod.mk.injEq] at h
        obtain ⟨-, h2, -⟩ := h
        rw [← h2]
        unfold XmlParser.getDetails
        simp [hdone]
    | cons ev rest ih =>
        intro out st' e hdone h hne
        cases ev with
        | StartElement name attrs =>
            simp only [XmlParser.process] at h
            have hd1 : (st.parse_node name msg attrs).fst.done = false := by
              rw [parse_nodeB_done, hdone]
            refine ih _ _ _ _ _ ?_ h hne
            exact hd1
        | Characters data =>
            simp only [XmlParser.process] at h
            by_cases hc : List.isSuffixOf ["Message", "Text"] st.parents = true
            · rw [if_pos hc] at h
              cases hl : msg.data.getLast? with
              | none =>
                  simp only [hl, Prod.mk.injEq] at h
                  obtain ⟨-, h2, -⟩ := h
                  rw [← h2]
                  unfold XmlParser.getDetails
                  simp [hdone]
              | some d =>
                  cases d with
                  | Text t =>
                      simp only [hl] at h
                      exact ih _ _ _ _ _ hdone h hne
                  | Image i =>
                      simp only [hl] at h
                      exact ih _ _ _ _ _ hdone h hne
                  | System s =>
                      simp only [hl] at h
                      exact ih _ _ _ _ _ hdone h hne
            · rw [if_neg hc] at h
              exact ih _ _ _ _ _ hdone h hne
        | EndElement name =>
            simp only [XmlParser.process] at h
            by_cases hc : (name == "Message") = true
            · rw [if_pos hc] at h
              simp only [Prod.mk.injEq] at h
              obtain ⟨-, h2⟩ := h
              have hX : XmlParser.process
                  { st with parents := st.parents.dropLast } {} rest =
                  ((XmlParser.process
                    { st with parents := st.parents.dropLast } {} rest).fst,
                   st', e) := by
                rw [← h2]
              refine ih _ _ _ _ _ ?_ hX hne
              exact hdone
            · rw [if_neg hc] at h
              refine ih _ _ _ _ _ ?_ h hne
              exact hdone
        | EndDocument =>
            simp only [XmlParser.process, Prod.mk.injEq] at h
            obtain ⟨-, -, h3⟩ := h
            exact absurd h3.symm hne
  · intro st msg evs
    induction evs generalizing st msg with
    | nil =>
        intro out st' h
        simp [XmlParser.process] at h
    | cons ev rest ih =>
        intro out st' h
        cases ev with
        | StartElement name attrs =>
            simp only [XmlParser.process] at h
            exact ih _ _ _ _ h
        | Characters data =>
            simp only [XmlParser.process] at h
            by_cases hc : List.isSuffixOf ["Message", "Text"] st.parents = true
            · rw [if_pos hc] at h
              cases hl : msg.data.getLast? with
              | none =>
                  simp only [hl] at h
                  simp at h
              | some d =>
                  cases d with
                  | Text t =>
                      simp only [hl] at h
                      exact ih _ _ _ _ h
                  | Image i =>
                      simp only [hl] at h
                      exact ih _ _ _ _ h
                  | System s =>
                      simp only [hl] at h
                      exact ih _ _ _ _ h
            · rw [if_neg hc] at h
              exact ih _ _ _ _ h
        | EndElement name =>
            simp only [XmlParser.process] at h
            by_cases hc : (name == "Message") = true
            · rw [if_pos hc] at h
              simp only [Prod.mk.injEq] at h
              obtain ⟨-, h2⟩ := h
              have hX : XmlParser.process
                  { st with parents := st.parents.dropLast } {} rest =
                  ((XmlParser.process
                    { st with parents := st.parents.dropLast } {} rest).fst,
                   st', RunEnd.endDoc) := by
                rw [← h2]
              exact ih _ _ _ _ hX
            · rw [if_neg hc] at h
              exact ih _ _ _ _ h
        | EndDocument =>
            simp only [XmlParser.process, Prod.mk.injEq] at h
            obtain ⟨-, h2, -⟩ := h
            rw [← h2]
            rfl

/-- C1 witness: mid-stream both parsers answer `none`; after end-of-document
the Format B parser answers with the frozen details, and the Format A parser
does too on an archive that recorded a session. -/
theorem c1_details_availability_witness :
    (MessengerPlusParser.process fsEmpty stA0 {}
      [XmlEvent.StartElement "html" []]).snd.fst.getDetails = none
    ∧ (MessengerPlusParser.process fsEmpty stA0 {}
        evsOneRow).snd.fst.getDetails =
      some (MessengerPlusParser.process fsEmpty stA0 {}
        evsOneRow).snd.fst.details
    ∧ (XmlParser.process stB0 {}
        [XmlEvent.StartElement "Log" []]).snd.fst.getDetails = none
    ∧ (XmlParser.process stB0 {} evsScrappy).snd.fst.getDetails =
      some (XmlParser.process stB0 {} evsScrappy).snd.fst.details := by
  refine ⟨?_, ?_, ?_, ?_⟩
  · exact c1_details_availability.1 fsEmpty stA0 {}
      [XmlEvent.StartElement "html" []]
      (MessengerPlusParser.process fsEmpty stA0 {}
        [XmlEvent.StartElement "html" []]).fst
      (MessengerPlusParser.process fsEmpty stA0 {}
        [XmlEvent.StartElement "html" []]).snd.fst
      RunEnd.outOfEvents rfl (by decide) (by decide)
  · exact (c1_details_availability.2.1 fsEmpty stA0 {} evsOneRow
      (MessengerPlusParser.process fsEmpty stA0 {} evsOneRow).fst
      (MessengerPlusParser.process fsEmpty stA0 {} evsOneRow).snd.fst
      (by decide)).2 (by decide)
  · exact c1_details_availability.2.2.1 stB0 {}
      [XmlEvent.StartElement "Log" []]
      (XmlParser.process stB0 {} [XmlEvent.StartElement "Log" []]).fst
      (XmlParser.process stB0 {} [XmlEvent.StartElement "Log" []]).snd.fst
      RunEnd.outOfEvents rfl (by decide) (by decide)
  · exact c1_details_availability.2.2.2 stB0 {} evsScrappy
      (XmlParser.process stB0 {} evsScrappy).fst
      (XmlParser.process stB0 {} evsScrappy).snd.fst
      (by decide)

end Msn
